import Mathlib

/-!
Verification of the fetch-fonts repository (src/fetch-fonts.js, src/webserver.js).

The JavaScript source is shallowly embedded: JS strings are Lean `String`s,
JS `String.prototype.split` / `includes` / `trim` / `replace(/x/g,'')` are
modelled by the executable functions `jsSplit`, `jsIncludes`, `jsTrim`,
`jsStrip` below, and code that can throw a `TypeError` (property access on
`null` / `undefined`) is modelled in `Except Unit`.
-/

set_option autoImplicit false
set_option maxRecDepth 40000

deriving instance DecidableEq for Except

namespace FetchFonts

/-- Helper for `splitFuel`: prepend a character to the first chunk of a
split result (the chunk currently being accumulated). -/
def consHead (c : Char) : List (List Char) → List (List Char)
  | [] => [[c]]
  | h :: t => (c :: h) :: t

/-- Fuel-driven splitting of a character list on a (non-empty) separator,
matching the semantics of JavaScript `String.prototype.split` with a string
separator: non-overlapping occurrences are found left to right, and the
result always has at least one element. -/
def splitFuel (sep : List Char) : Nat → List Char → List (List Char)
  | _, [] => [[]]
  | 0, s => [s]
  | n+1, x :: rest =>
    if sep.isPrefixOf (x :: rest) then
      [] :: splitFuel sep n ((x :: rest).drop sep.length)
    else
      consHead x (splitFuel sep n rest)

/-- JavaScript `s.split(sep)` for a non-empty string separator. -/
def jsSplit (s sep : String) : List String :=
  (splitFuel sep.data (s.data.length + 1) s.data).map (fun l => String.mk l)

/-- Substring containment on character lists: `sub` occurs contiguously in
the second argument. -/
def hasInfix (sub : List Char) : List Char → Bool
  | [] => sub.isEmpty
  | x :: rest => sub.isPrefixOf (x :: rest) || hasInfix sub rest

/-- JavaScript `s.includes(sub)`: substring containment. -/
def jsIncludes (s sub : String) : Bool :=
  hasInfix sub.data s.data

/-- Whitespace characters removed by JavaScript `String.prototype.trim`
(the ones relevant to this code base). -/
def isJsSpace (c : Char) : Bool :=
  c == ' ' || c == '\t' || c == '\n' || c == '\r' || c == '\x0b' || c == '\x0c'

/-- JavaScript `s.trim()`. -/
def jsTrim (s : String) : String :=
  String.mk (((s.data.dropWhile fun c => isJsSpace c).reverse.dropWhile fun c => isJsSpace c).reverse)

/-- JavaScript `s.replace(/c/g, '')` for a single character `c`: removes
every occurrence of that character. -/
def jsStrip (c : Char) (s : String) : String :=
  String.mk (s.data.filter (fun a => a != c))

/-- JavaScript template-literal interpolation of a value that may be
`undefined` (modelled as `none`): `undefined` prints as "undefined". -/
def jsTemplate : Option String → String
  | some s => s
  | none => "undefined"

/-- Node `path.join` restricted to the uses in this code base: empty
segments are skipped, the rest are joined with "/". -/
def jsPathJoin (parts : List String) : String :=
  String.intercalate "/" (parts.filter (fun p => p != ""))

/-- The font-face descriptor accumulated by `parseAndDownloadFonts`
(src/fetch-fonts.js lines 75-80).  `fontFamily` is an `Option` because the
source assigns `line.split('\'')[1]`, which is `undefined` when the line
holds no single quote; the other three fields can never become
`undefined`. -/
structure FontFace where
  fontFamily : Option String
  fontStyle : String
  fontWeight : String
  srcUrl : String
deriving DecidableEq, Repr

/-- The freshly reset descriptor of src/fetch-fonts.js lines 75-80: all
four fields are the empty string. -/
def emptyFontFace : FontFace := ⟨some "", "", "", ""⟩

/-- Parser state: the currently open descriptor (JS `currentObject`, `none`
for JS `null`) and the descriptors pushed so far (JS `fontFaces`). -/
abbrev ParseState := Option FontFace × List FontFace

/-- One iteration of the line loop of `parseAndDownloadFonts`
(src/fetch-fonts.js lines 64-98).  `Except.error ()` models a thrown
`TypeError`: assigning a property of `null` (a marker line while
`currentObject` is null) or calling `.split` on `undefined` (a `src:` line
with no `url(` token). -/
def parseLine (st : ParseState) (line : String) : Except Unit ParseState :=
  if jsIncludes line "@font-face" then
    .ok (some emptyFontFace, st.2 ++ st.1.toList)
  else if jsIncludes line "font-family:" then
    match st.1 with
    | none => .error ()
    | some c => .ok (some { c with fontFamily := (jsSplit line "'")[1]? }, st.2)
  else if jsIncludes line "font-style:" then
    match st.1 with
    | none => .error ()
    | some c =>
      match (jsSplit line ":")[1]? with
      | none => .error ()
      | some v => .ok (some { c with fontStyle := jsTrim v }, st.2)
  else if jsIncludes line "font-weight:" then
    match st.1 with
    | none => .error ()
    | some c =>
      match (jsSplit line ":")[1]? with
      | none => .error ()
      | some v => .ok (some { c with fontWeight := jsTrim v }, st.2)
  else if jsIncludes line "src:" then
    match (jsSplit line "url(")[1]? with
    | none => .error ()
    | some v =>
      match st.1 with
      | none => .error ()
      | some c => .ok (some { c with srcUrl := (jsSplit v ")").headD "" }, st.2)
  else
    .ok st

/-- The whole line loop of `parseAndDownloadFonts` (src/fetch-fonts.js
lines 64-98), threading the state through every line. -/
def parseLines (st : ParseState) : List String → Except Unit ParseState
  | [] => .ok st
  | l :: ls =>
    match parseLine st l with
    | .error e => .error e
    | .ok st2 => parseLines st2 ls

/-- The parsing phase of `parseAndDownloadFonts` (src/fetch-fonts.js lines
53-103): split the CSS on newlines, run the line loop from a null current
object and an empty array, and flush the still-open descriptor at end of
input (lines 101-103). -/
def parseFontFaces (css : String) : Except Unit (List FontFace) :=
  match parseLines (none, []) (jsSplit css "\n") with
  | .error e => .error e
  | .ok (cur, acc) => .ok (acc ++ cur.toList)

/-- The extension extracted by src/fetch-fonts.js lines 215-218 (and again
at lines 163-165): split the source URL on "/", take the last element, split
that on "." and take index 1.  The result is `none` (JS `undefined`) when
the last segment holds no ".". -/
def fontFileExtension (srcUrl : String) : Option String :=
  (jsSplit ((jsSplit srcUrl "/").getLastD "") ".")[1]?

/-- `getFontFaceFileName` (src/fetch-fonts.js lines 210-225).  When
`fontFamily` is `undefined`, `fontFamily.replace(/ /g,'')` throws a
`TypeError`, modelled as `Except.error ()`.  Otherwise the name is the
template `familyNoSpaces-style-weight.ext` with every ";" removed; an
`undefined` extension interpolates as the text "undefined". -/
def getFontFaceFileName (f : FontFace) : Except Unit String :=
  match f.fontFamily with
  | none => .error ()
  | some fam =>
    .ok (jsStrip ';'
      (jsStrip ' ' fam ++ "-" ++ f.fontStyle ++ "-" ++ f.fontWeight ++ "." ++
        jsTemplate (fontFileExtension f.srcUrl)))

/-- One iteration of the loop of `buildFontFaceCSS` (src/fetch-fonts.js
lines 157-171): one `@font-face` rule string referencing the relative path
`../fonts/<family>/<derivedFileName>` with the format token derived from the
file extension.  `getFontFaceFileName` is called inside the loop, so an
`undefined` family makes the whole build throw. -/
def fontFaceRule (f : FontFace) : Except Unit String :=
  match getFontFaceFileName f with
  | .error e => .error e
  | .ok name =>
    .ok ("@font-face \x7bfont-family: '" ++ jsTemplate f.fontFamily ++
      "';font-style: " ++ f.fontStyle ++ ";font-weight: " ++ f.fontWeight ++
      ";src: url('" ++ ("../fonts/" ++ jsTemplate f.fontFamily ++ "/" ++ name) ++
      "') format('" ++ jsTemplate (fontFileExtension f.srcUrl) ++ "');\x7d")

/-- The rules accumulated by the loop of `buildFontFaceCSS`
(src/fetch-fonts.js lines 153-175), one per descriptor, in order. -/
def buildFontFaceRules : List FontFace → Except Unit (List String)
  | [] => .ok []
  | f :: fs =>
    match fontFaceRule f with
    | .error e => .error e
    | .ok r =>
      match buildFontFaceRules fs with
      | .error e => .error e
      | .ok rs => .ok (r :: rs)

/-- `buildFontFaceCSS` (src/fetch-fonts.js lines 153-175) up to
minification: the rules joined with a trailing newline each (the source
appends each rule followed by a newline).  The source finally pipes this
string through `minify` from the external csso library, which is not part
of this repository; the claims about the rewritten stylesheet are settled
on this pre-minification text. -/
def buildFontFaceCSS (fs : List FontFace) : Except Unit String :=
  match buildFontFaceRules fs with
  | .error e => .error e
  | .ok rs => .ok (String.join (rs.map (fun r => r ++ "\n")))

/-- How one invocation of `download` (src/fetch-fonts.js lines 184-198)
turns out.  The promise executor runs `https.get(url, {}, cb)` and, inside
the response callback, `res.pipe(writer).on('finish', resolve).on('error',
reject)` — `pipe` returns its destination, so BOTH handlers are attached to
the writer only:
- `success`: the response streamed into the file and the writer finished;
  the promise resolves;
- `rejection`: the promise rejects — a writer ('error') failure, or a
  synchronous throw from `https.get` inside the executor (e.g. a malformed
  URL); this is the only failure class the loop's try/catch ever sees;
- `requestCrash`: a connection-level failure (connection refused, DNS, TLS)
  emits 'error' on the ClientRequest, which has no listener: Node raises an
  uncaught exception and the process dies;
- `stall`: an error on the response stream fires neither writer handler, so
  the promise never settles and the awaiting loop suspends forever. -/
inductive DownloadResult where
  | success
  | rejection
  | requestCrash
  | stall
deriving DecidableEq, Repr

/-- How the download loop ends: it runs to completion, or the process is
killed by an uncaught request 'error', or it suspends forever on a promise
that never settles.  `attempts` are the URLs passed to `download`, in loop
order; `files` the completely written font files (a writer error may leave
a partial file behind, which is not a completed font file). -/
inductive BatchOutcome where
  | completed (attempts : List String) (files : List String)
  | crashed (attempts : List String) (files : List String)
  | stalled (attempts : List String) (files : List String)
deriving DecidableEq, Repr

/-- Record one more (earlier) loop iteration in front of a batch outcome:
the attempted URL and, when the download succeeded, its file. -/
def BatchOutcome.push (url : String) (file : Option String) : BatchOutcome → BatchOutcome
  | .completed att files => .completed (url :: att) (file.toList ++ files)
  | .crashed att files => .crashed (url :: att) (file.toList ++ files)
  | .stalled att files => .stalled (url :: att) (file.toList ++ files)

/-- The download loop of `parseAndDownloadFonts` (src/fetch-fonts.js lines
112-129).  `dl` gives each source URL's `DownloadResult`.  Each iteration
awaits `download` inside try/catch, but `getFontFaceFileName` is called
before the try (line 115), so its `TypeError` propagates.  A `rejection` is
caught and logged and the loop continues with no completed file; a
`requestCrash` kills the process and a `stall` suspends the loop — in both
cases no later descriptor is ever attempted. -/
def downloadAll : List FontFace → (String → DownloadResult) → Except Unit BatchOutcome
  | [], _ => .ok (.completed [] [])
  | f :: fs, dl =>
    match getFontFaceFileName f with
    | .error e => .error e
    | .ok name =>
      match dl f.srcUrl with
      | .requestCrash => .ok (.crashed [f.srcUrl] [])
      | .stall => .ok (.stalled [f.srcUrl] [])
      | .success =>
        match downloadAll fs dl with
        | .error e => .error e
        | .ok r =>
          .ok (r.push f.srcUrl (some (jsPathJoin ["fonts", jsTemplate f.fontFamily, name])))
      | .rejection =>
        match downloadAll fs dl with
        | .error e => .error e
        | .ok r => .ok (r.push f.srcUrl none)

/-- What a completed `parseAndDownloadFonts` (src/fetch-fonts.js lines
53-141) leaves behind, relative to its output directory: the download
attempts in order, the completed font files, and the stylesheet text
written to `css/fonts.min.css`. -/
structure PDResult where
  attempts : List String
  files : List String
  cssOut : String
deriving DecidableEq, Repr

/-- Outcome of `parseAndDownloadFonts`: on a crashed or stalled batch the
`fs.writeFileSync` at line 140 is never reached, so no stylesheet is
written. -/
inductive PDOutcome where
  | completed (r : PDResult)
  | crashed (attempts : List String) (files : List String)
  | stalled (attempts : List String) (files : List String)
deriving DecidableEq, Repr

/-- `parseAndDownloadFonts` (src/fetch-fonts.js lines 53-141) end to end:
parse the CSS (lines 64-103), build the rewritten stylesheet from the
descriptors alone (line 106, before any download), run the download loop
(lines 112-129), and — only if the loop completes — write the stylesheet
(line 140). -/
def parseAndDownloadFonts (css : String) (dl : String → DownloadResult) :
    Except Unit PDOutcome :=
  match parseFontFaces css with
  | .error e => .error e
  | .ok fs =>
    match buildFontFaceCSS fs with
    | .error e => .error e
    | .ok out =>
      match downloadAll fs dl with
      | .error e => .error e
      | .ok (.completed att files) => .ok (.completed ⟨att, files, out⟩)
      | .ok (.crashed att files) => .ok (.crashed att files)
      | .ok (.stalled att files) => .ok (.stalled att files)

/-- Outcome of the upstream stylesheet fetch in `getDataFromUrl`
(src/fetch-fonts.js line 39): the promise resolves with a body, or rejects
(network error, connection refused, malformed URL). -/
inductive FetchOutcome where
  | success (body : String)
  | failure
deriving DecidableEq, Repr

/-- How `getDataFromUrl`'s promise is observed by the route handler: it
resolves with the archive path, rejects (fetch rejection or a `TypeError`),
or never settles because the process crashed or a download stalled. -/
inductive GDUOutcome where
  | resolved (archivePath : Option String)
  | rejected
  | processCrashed
  | hung
deriving DecidableEq, Repr

/-- What the /download route handler (src/webserver.js lines 18-34) sends
back: a file download of the archive, a redirect to the error page, or no
response at all because a rejection escaped the handler. -/
inductive HttpResponse where
  | fileDownload (path : String)
  | redirectError (msg : String)
  | noResponse
deriving DecidableEq, Repr

/-- End-of-request observation for the /download handler: the response and
whether the per-request temporary directory and the archive file still
exist on disk afterwards. -/
structure RequestEnd where
  response : HttpResponse
  tmpDirExists : Bool
  archiveExists : Bool
deriving DecidableEq, Repr

/-- `getDataFromUrl` (src/fetch-fonts.js lines 28-43).  The temporary
directories are created (lines 29-37) before the fetch; a fetch rejection
or a `TypeError` from `parseAndDownloadFonts` propagates (there is no
try/catch), and a crashed or stalled download batch means the promise never
settles.  Otherwise the function always resolves with the (non-null)
archive path returned by `createZipArchive`; `archivePath` stands for that
freshly generated path. -/
def getDataFromUrl (fetch : FetchOutcome) (dl : String → DownloadResult)
    (archivePath : String) : GDUOutcome :=
  match fetch with
  | .failure => .rejected
  | .success body =>
    match parseAndDownloadFonts body dl with
    | .error _ => .rejected
    | .ok (.completed _) => .resolved (some archivePath)
    | .ok (.crashed _ _) => .processCrashed
    | .ok (.stalled _ _) => .hung

/-- The /download route handler (src/webserver.js lines 18-34).  The
handler awaits `getDataFromUrl(url, tempDirectory).then(cb)` with no catch:
a rejection escapes the async handler and no response is sent; a process
crash or a hung promise likewise sends nothing — in all three cases the
temporary directory created before the fetch survives, uncleaned.  In the
callback, a null archive path redirects to the error page (without
cleanup), and a non-null one is streamed with `res.download`, whose
completion callback always calls `cleanup` (src/fetch-fonts.js lines
275-280), deleting the temporary directory tree and the archive file. -/
def handleDownload (fetch : FetchOutcome) (dl : String → DownloadResult)
    (archivePath : String) : RequestEnd :=
  match getDataFromUrl fetch dl archivePath with
  | .rejected => ⟨.noResponse, true, false⟩
  | .processCrashed => ⟨.noResponse, true, false⟩
  | .hung => ⟨.noResponse, true, false⟩
  | .resolved none => ⟨.redirectError "Invalid URL or No Fonts Found", true, false⟩
  | .resolved (some p) => ⟨.fileDownload p, false, false⟩

/-! Characterizations of the five branches of the line loop. -/

theorem parseLine_fontface (st : ParseState) (line : String)
    (h : jsIncludes line "@font-face" = true) :
    parseLine st line = .ok (some emptyFontFace, st.2 ++ st.1.toList) := by
  simp [parseLine, h]

theorem parseLine_family (c : FontFace) (acc : List FontFace) (line : String)
    (h0 : jsIncludes line "@font-face" = false)
    (h1 : jsIncludes line "font-family:" = true) :
    parseLine (some c, acc) line =
      .ok (some { c with fontFamily := (jsSplit line "'")[1]? }, acc) := by
  simp [parseLine, h0, h1]

theorem parseLine_family_null (acc : List FontFace) (line : String)
    (h0 : jsIncludes line "@font-face" = false)
    (h1 : jsIncludes line "font-family:" = true) :
    parseLine (none, acc) line = .error () := by
  simp [parseLine, h0, h1]

theorem parseLine_style (c : FontFace) (acc : List FontFace) (line v : String)
    (h0 : jsIncludes line "@font-face" = false)
    (h1 : jsIncludes line "font-family:" = false)
    (h2 : jsIncludes line "font-style:" = true)
    (hv : (jsSplit line ":")[1]? = some v) :
    parseLine (some c, acc) line = .ok (some { c with fontStyle := jsTrim v }, acc) := by
  simp [parseLine, h0, h1, h2, hv]

theorem parseLine_style_null (acc : List FontFace) (line : String)
    (h0 : jsIncludes line "@font-face" = false)
    (h1 : jsIncludes line "font-family:" = false)
    (h2 : jsIncludes line "font-style:" = true) :
    parseLine (none, acc) line = .error () := by
  simp [parseLine, h0, h1, h2]

theorem parseLine_weight (c : FontFace) (acc : List FontFace) (line v : String)
    (h0 : jsIncludes line "@font-face" = false)
    (h1 : jsIncludes line "font-family:" = false)
    (h2 : jsIncludes line "font-style:" = false)
    (h3 : jsIncludes line "font-weight:" = true)
    (hv : (jsSplit line ":")[1]? = some v) :
    parseLine (some c, acc) line = .ok (some { c with fontWeight := jsTrim v }, acc) := by
  simp [parseLine, h0, h1, h2, h3, hv]

theorem parseLine_weight_null (acc : List FontFace) (line : String)
    (h0 : jsIncludes line "@font-face" = false)
    (h1 : jsIncludes line "font-family:" = false)
    (h2 : jsIncludes line "font-style:" = false)
    (h3 : jsIncludes line "font-weight:" = true) :
    parseLine (none, acc) line = .error () := by
  simp [parseLine, h0, h1, h2, h3]

theorem parseLine_src (c : FontFace) (acc : List FontFace) (line v : String)
    (h0 : jsIncludes line "@font-face" = false)
    (h1 : jsIncludes line "font-family:" = false)
    (h2 : jsIncludes line "font-style:" = false)
    (h3 : jsIncludes line "font-weight:" = false)
    (h4 : jsIncludes line "src:" = true)
    (hv : (jsSplit line "url(")[1]? = some v) :
    parseLine (some c, acc) line =
      .ok (some { c with srcUrl := (jsSplit v ")").headD "" }, acc) := by
  simp [parseLine, h0, h1, h2, h3, h4, hv]

theorem parseLine_src_nourl (c : FontFace) (acc : List FontFace) (line : String)
    (h0 : jsIncludes line "@font-face" = false)
    (h1 : jsIncludes line "font-family:" = false)
    (h2 : jsIncludes line "font-style:" = false)
    (h3 : jsIncludes line "font-weight:" = false)
    (h4 : jsIncludes line "src:" = true)
    (hv : (jsSplit line "url(")[1]? = none) :
    parseLine (some c, acc) line = .error () := by
  simp [parseLine, h0, h1, h2, h3, h4, hv]

theorem parseLine_ignore (st : ParseState) (line : String)
    (h0 : jsIncludes line "@font-face" = false)
    (h1 : jsIncludes line "font-family:" = false)
    (h2 : jsIncludes line "font-style:" = false)
    (h3 : jsIncludes line "font-weight:" = false)
    (h4 : jsIncludes line "src:" = false) :
    parseLine st line = .ok st := by
  simp [parseLine, h0, h1, h2, h3, h4]

/-! Concrete inputs used by the end-to-end claims. -/

/-- The stylesheet text of the spec's end-to-end example, written exactly as
the spec writes it: the whole block on a single line. -/
def c1OneLineInput : String :=
  "@font-face\x7bfont-family:'Inter';font-style:normal;font-weight:400;src:url(https://host/inter.woff2) format('woff2');\x7d"

/-- The same block with each declaration on its own line, the shape the
line-based parser actually handles. -/
def c1MultiLineInput : String :=
  "@font-face\x7b\nfont-family:'Inter';\nfont-style:normal;\nfont-weight:400;\nsrc:url(https://host/inter.woff2) format('woff2');\n\x7d"

/-- The descriptor the parser produces for `c1MultiLineInput`.  Note that
`line.split(':')[1].trim()` keeps the trailing ";" of the declaration, so the
style and weight fields carry it. -/
def dInter : FontFace := ⟨some "Inter", "normal;", "400;", "https://host/inter.woff2"⟩

/-- A second concrete descriptor, used by witnesses. -/
def dRoboto : FontFace := ⟨some "Roboto", "italic;", "700;", "https://host/roboto.woff2"⟩

/-- Claim C1, counterexample: on the claim's input, whose whole block sits on
one single line, the parser sees the `@font-face` marker first and never
reads the other declarations of that line (they sit in `else if` branches),
so the one produced descriptor has all fields empty, not family "Inter". -/
theorem claim_c1_counterexample :
    parseFontFaces c1OneLineInput = .ok [emptyFontFace] ∧
      emptyFontFace.fontFamily ≠ some "Inter" ∧
      emptyFontFace.srcUrl ≠ "https://host/inter.woff2" := by
  refine ⟨by decide, by decide, by decide⟩

/-- Claim C1 (amended): with each declaration of the block on its own line,
the parser produces exactly one descriptor with family "Inter", style
"normal;", weight "400;" (the trailing semicolon of the declaration is kept
by `split(':')[1].trim()`), and source URL "https://host/inter.woff2"; the
derived file name is "Inter-normal-400.woff2" (the semicolons are stripped
there); and the rewritten stylesheet holds exactly one rule, whose src path
is "../fonts/Inter/Inter-normal-400.woff2". -/
theorem claim_c1_end_to_end :
    parseFontFaces c1MultiLineInput = .ok [dInter] ∧
    getFontFaceFileName dInter = .ok "Inter-normal-400.woff2" ∧
    buildFontFaceRules [dInter] = .ok
      ["@font-face \x7bfont-family: 'Inter';font-style: normal;;font-weight: 400;;src: url('" ++
        "../fonts/Inter/Inter-normal-400.woff2" ++ "') format('woff2');\x7d"] := by
  refine ⟨by decide, by decide, by decide⟩

/-- Claim C2 (code bug): when the fetched stylesheet parses to zero
descriptors, `getDataFromUrl` still resolves with its non-null archive path
(the zip of a tree holding only the empty `css/fonts.min.css`), so the
handler's `archivePath == null` check never fires and the caller is streamed
an archive instead of being redirected to the error page. -/
theorem claim_c2_zero_fonts_still_archives (body : String) (dl : String → DownloadResult)
    (p : String) (h : parseFontFaces body = .ok []) :
    handleDownload (.success body) dl p = ⟨.fileDownload p, false, false⟩ ∧
      ∀ msg, (handleDownload (.success body) dl p).response ≠ .redirectError msg := by
  have hpd : parseAndDownloadFonts body dl = .ok (.completed ⟨[], [], ""⟩) := by
    simp [parseAndDownloadFonts, h, buildFontFaceCSS, buildFontFaceRules, downloadAll,
      String.join]
  constructor
  · simp [handleDownload, getDataFromUrl, hpd]
  · intro msg
    simp [handleDownload, getDataFromUrl, hpd]

/-- Witness for C2: a concrete stylesheet with no font-face block is
answered with a streamed archive, not the error redirect. -/
theorem claim_c2_witness :
    handleDownload (.success "body \x7b color: red; \x7d") (fun _ => .success)
        "tmp/fonts.zip" =
      ⟨.fileDownload "tmp/fonts.zip", false, false⟩ :=
  (claim_c2_zero_fonts_still_archives "body \x7b color: red; \x7d" (fun _ => .success)
    "tmp/fonts.zip" (by decide)).1

/-- Claim C3, counterexample: the parser is not exception-free.  A line
containing the `font-family:` marker before any `@font-face` line makes the
source assign a property of `null` (`currentObject.fontFamily = ...`), a
thrown `TypeError`, rather than being silently ignored. -/
theorem claim_c3_counterexample :
    parseFontFaces "font-family: 'X';" = .error () := by decide

/-- Claim C3 (amended): parsing always terminates (the loop is a fold over
the split lines), and lines containing none of the five markers are silently
ignored wherever they occur; a `font-family:` line with no single quote
yields a descriptor whose family is `undefined` rather than a failure; but a
marker line occurring while no descriptor is open, or a `src:` line with no
`url(` token, makes the parser throw a `TypeError`. -/
theorem claim_c3_amended :
    (∀ (st : ParseState) (line : String),
      jsIncludes line "@font-face" = false → jsIncludes line "font-family:" = false →
      jsIncludes line "font-style:" = false → jsIncludes line "font-weight:" = false →
      jsIncludes line "src:" = false → parseLine st line = .ok st) ∧
    (∀ (c : FontFace) (acc : List FontFace) (line : String),
      jsIncludes line "@font-face" = false → jsIncludes line "font-family:" = true →
      (jsSplit line "'")[1]? = none →
      parseLine (some c, acc) line = .ok (some { c with fontFamily := none }, acc)) ∧
    (∀ (acc : List FontFace) (line : String),
      jsIncludes line "@font-face" = false → jsIncludes line "font-family:" = true →
      parseLine (none, acc) line = .error ()) ∧
    (∀ (c : FontFace) (acc : List FontFace) (line : String),
      jsIncludes line "@font-face" = false → jsIncludes line "font-family:" = false →
      jsIncludes line "font-style:" = false → jsIncludes line "font-weight:" = false →
      jsIncludes line "src:" = true → (jsSplit line "url(")[1]? = none →
      parseLine (some c, acc) line = .error ()) := by
  refine ⟨fun st line h0 h1 h2 h3 h4 => parseLine_ignore st line h0 h1 h2 h3 h4,
    fun c acc line h0 h1 hq => ?_,
    fun acc line h0 h1 => parseLine_family_null acc line h0 h1,
    fun c acc line h0 h1 h2 h3 h4 hu => parseLine_src_nourl c acc line h0 h1 h2 h3 h4 hu⟩
  have h := parseLine_family c acc line h0 h1
  rw [hq] at h
  exact h

/-- Witness for C3 (amended), at concrete lines: a marker-free line is kept
as-is, a quoteless family line yields an `undefined` family, a family line
before any block throws, and a `src:` line without `url(` throws. -/
theorem claim_c3_witness :
    parseLine (none, []) "body \x7b" = .ok (none, []) ∧
    parseLine (some emptyFontFace, []) "font-family: X;" =
      .ok (some ⟨none, "", "", ""⟩, []) ∧
    parseLine (none, []) "font-family: 'X';" = .error () ∧
    parseLine (some emptyFontFace, []) "src: local;" = .error () := by
  refine ⟨claim_c3_amended.1 (none, []) "body \x7b"
      (by decide) (by decide) (by decide) (by decide) (by decide), ?_,
    claim_c3_amended.2.2.1 [] "font-family: 'X';" (by decide) (by decide),
    claim_c3_amended.2.2.2 emptyFontFace [] "src: local;"
      (by decide) (by decide) (by decide) (by decide) (by decide) (by decide)⟩
  have h := claim_c3_amended.2.1 emptyFontFace [] "font-family: X;"
    (by decide) (by decide) (by decide)
  simpa [emptyFontFace] using h

/-- Claim C7 (code bug): when the upstream fetch rejects, `getDataFromUrl`
rejects too (no try/catch), and the handler's `.then` chain has no rejection
branch: the rejection escapes the async handler and the caller gets no
response at all — in particular no redirect carrying an error message. -/
theorem claim_c7_fetch_failure_unhandled (dl : String → DownloadResult) (p : String) :
    handleDownload .failure dl p = ⟨.noResponse, true, false⟩ ∧
      ∀ msg, (handleDownload .failure dl p).response ≠ .redirectError msg := by
  constructor
  · rfl
  · intro msg
    simp [handleDownload, getDataFromUrl]

/-- Claim C8, counterexample: a request whose upstream fetch fails ends with
the temporary directory (created before the fetch) still on disk — `cleanup`
only runs in the `res.download` completion callback of the success path. -/
theorem claim_c8_counterexample :
    (handleDownload .failure (fun _ => .success) "tmp/fonts.zip").tmpDirExists = true := by
  decide

/-- Claim C8 (amended): on every request that reaches the archive-streaming
path, the `res.download` completion callback runs `cleanup`, so at the end
of the request neither the temporary directory nor the archive exists; a
request failing before that path leaves the temporary directory behind. -/
theorem claim_c8_success_cleanup (fetch : FetchOutcome) (dl : String → DownloadResult)
    (p q : String) (h : (handleDownload fetch dl p).response = .fileDownload q) :
    (handleDownload fetch dl p).tmpDirExists = false ∧
      (handleDownload fetch dl p).archiveExists = false := by
  cases hg : getDataFromUrl fetch dl p with
  | rejected => simp [handleDownload, hg] at h
  | processCrashed => simp [handleDownload, hg] at h
  | hung => simp [handleDownload, hg] at h
  | resolved o =>
    cases o with
    | none => simp [handleDownload, hg] at h
    | some r => simp [handleDownload, hg]

/-- Witness for C8 (amended) at a concrete successful request. -/
theorem claim_c8_witness :
    (handleDownload (.success "no fonts here") (fun _ => .success)
        "tmp/fonts.zip").tmpDirExists = false ∧
      (handleDownload (.success "no fonts here") (fun _ => .success)
        "tmp/fonts.zip").archiveExists = false :=
  claim_c8_success_cleanup (.success "no fonts here") (fun _ => .success) "tmp/fonts.zip"
    "tmp/fonts.zip" (by decide)

/-- Claim C10: inside an open block, every line matching a declaration
marker overwrites the corresponding field with the value extracted from that
line, whatever the field held before; so after two matching lines the field
holds the second line's value — the last occurrence wins.  Stated for each
of the four markers over a two-line sequence. -/
theorem claim_c10_last_wins :
    (∀ (c : FontFace) (acc : List FontFace) (l1 l2 : String),
      jsIncludes l1 "@font-face" = false → jsIncludes l1 "font-family:" = true →
      jsIncludes l2 "@font-face" = false → jsIncludes l2 "font-family:" = true →
      parseLines (some c, acc) [l1, l2] =
        .ok (some { c with fontFamily := (jsSplit l2 "'")[1]? }, acc)) ∧
    (∀ (c : FontFace) (acc : List FontFace) (l1 l2 v1 v2 : String),
      jsIncludes l1 "@font-face" = false → jsIncludes l1 "font-family:" = false →
      jsIncludes l1 "font-style:" = true → (jsSplit l1 ":")[1]? = some v1 →
      jsIncludes l2 "@font-face" = false → jsIncludes l2 "font-family:" = false →
      jsIncludes l2 "font-style:" = true → (jsSplit l2 ":")[1]? = some v2 →
      parseLines (some c, acc) [l1, l2] = .ok (some { c with fontStyle := jsTrim v2 }, acc)) ∧
    (∀ (c : FontFace) (acc : List FontFace) (l1 l2 v1 v2 : String),
      jsIncludes l1 "@font-face" = false → jsIncludes l1 "font-family:" = false →
      jsIncludes l1 "font-style:" = false → jsIncludes l1 "font-weight:" = true →
      (jsSplit l1 ":")[1]? = some v1 →
      jsIncludes l2 "@font-face" = false → jsIncludes l2 "font-family:" = false →
      jsIncludes l2 "font-style:" = false → jsIncludes l2 "font-weight:" = true →
      (jsSplit l2 ":")[1]? = some v2 →
      parseLines (some c, acc) [l1, l2] = .ok (some { c with fontWeight := jsTrim v2 }, acc)) ∧
    (∀ (c : FontFace) (acc : List FontFace) (l1 l2 u1 u2 : String),
      jsIncludes l1 "@font-face" = false → jsIncludes l1 "font-family:" = false →
      jsIncludes l1 "font-style:" = false → jsIncludes l1 "font-weight:" = false →
      jsIncludes l1 "src:" = true → (jsSplit l1 "url(")[1]? = some u1 →
      jsIncludes l2 "@font-face" = false → jsIncludes l2 "font-family:" = false →
      jsIncludes l2 "font-style:" = false → jsIncludes l2 "font-weight:" = false →
      jsIncludes l2 "src:" = true → (jsSplit l2 "url(")[1]? = some u2 →
      parseLines (some c, acc) [l1, l2] =
        .ok (some { c with srcUrl := (jsSplit u2 ")").headD "" }, acc)) := by
  refine ⟨fun c acc l1 l2 h0 h1 h2 h3 => ?_, fun c acc l1 l2 v1 v2 h0 h1 h2 hv h3 h4 h5 hw => ?_,
    fun c acc l1 l2 v1 v2 h0 h1 h2 h3 hv h4 h5 h6 h7 hw => ?_,
    fun c acc l1 l2 u1 u2 h0 h1 h2 h3 h4 hu h5 h6 h7 h8 h9 hw => ?_⟩
  · have s1 := parseLine_family c acc l1 h0 h1
    have s2 := parseLine_family { c with fontFamily := (jsSplit l1 "'")[1]? } acc l2 h2 h3
    simp only [parseLines, s1, s2]
  · have s1 := parseLine_style c acc l1 v1 h0 h1 h2 hv
    have s2 := parseLine_style { c with fontStyle := jsTrim v1 } acc l2 v2 h3 h4 h5 hw
    simp only [parseLines, s1, s2]
  · have s1 := parseLine_weight c acc l1 v1 h0 h1 h2 h3 hv
    have s2 := parseLine_weight { c with fontWeight := jsTrim v1 } acc l2 v2 h4 h5 h6 h7 hw
    simp only [parseLines, s1, s2]
  · have s1 := parseLine_src c acc l1 u1 h0 h1 h2 h3 h4 hu
    have s2 := parseLine_src { c with srcUrl := (jsSplit u1 ")").headD "" } acc l2 u2
      h5 h6 h7 h8 h9 hw
    simp only [parseLines, s1, s2]

/-- Witness for C10: two `font-weight:` lines in sequence leave the weight
extracted from the second line. -/
theorem claim_c10_witness :
    parseLines (some emptyFontFace, []) ["font-weight: 300;", "font-weight: 700;"] =
      .ok (some ⟨some "", "", "700;", ""⟩, []) := by
  have h := claim_c10_last_wins.2.2.1 emptyFontFace [] "font-weight: 300;" "font-weight: 700;"
    " 300;" " 700;" (by decide) (by decide) (by decide) (by decide) (by decide)
    (by decide) (by decide) (by decide) (by decide) (by decide)
  simpa [emptyFontFace] using h

/-! Characterization of single-character splits, used to compare the
code's extension extraction with the spec's wording. -/

/-- Single-character split, the recursive reference form of `splitFuel` for
a one-character separator. -/
def splitCh (c : Char) : List Char → List (List Char)
  | [] => [[]]
  | x :: xs => if x = c then [] :: splitCh c xs else consHead x (splitCh c xs)

/-- The chunk after the first occurrence of `c`, up to the next occurrence:
what `split(c)[1]` denotes when it exists. -/
def afterFirst (c : Char) (l : List Char) : Option (List Char) :=
  match l.dropWhile (fun a => a != c) with
  | [] => none
  | _ :: rest => some (rest.takeWhile (fun a => a != c))

theorem consHead_ne_nil (x : Char) (L : List (List Char)) : consHead x L ≠ [] := by
  cases L <;> simp [consHead]

theorem splitCh_ne_nil (c : Char) (l : List Char) : splitCh c l ≠ [] := by
  cases l with
  | nil => simp [splitCh]
  | cons x xs =>
    simp only [splitCh]
    split
    · simp
    · exact consHead_ne_nil _ _

theorem splitFuel_single (c : Char) :
    ∀ (l : List Char) (n : Nat), l.length ≤ n → splitFuel [c] n l = splitCh c l := by
  intro l
  induction l with
  | nil => intro n _; cases n <;> rfl
  | cons x xs ih =>
    intro n hn
    cases n with
    | zero => simp at hn
    | succ m =>
      have hm : xs.length ≤ m := by simpa using hn
      by_cases hx : x = c
      · have hp : [c].isPrefixOf (x :: xs) = true := by
          simp [List.isPrefixOf, hx]
        simp [splitFuel, hp, splitCh, hx, ih m hm]
      · have hp : [c].isPrefixOf (x :: xs) = false := by
          simp [List.isPrefixOf]
          exact fun h => hx h.symm
        simp [splitFuel, hp, splitCh, hx, ih m hm]

theorem splitCh_get0 (c : Char) (l : List Char) :
    (splitCh c l)[0]? = some (l.takeWhile (fun a => a != c)) := by
  induction l with
  | nil => rfl
  | cons x xs ih =>
    by_cases hx : x = c
    · simp [splitCh, hx, List.takeWhile_cons]
    · obtain ⟨h, t, hht⟩ : ∃ h t, splitCh c xs = h :: t := by
        cases hsp : splitCh c xs with
        | nil => exact absurd hsp (splitCh_ne_nil c xs)
        | cons h t => exact ⟨h, t, rfl⟩
      have ih2 : h = xs.takeWhile (fun a => a != c) := by
        rw [hht] at ih
        simpa using ih
      simp [splitCh, hx, hht, consHead, ih2, List.takeWhile_cons]

theorem splitCh_get1 (c : Char) (l : List Char) :
    (splitCh c l)[1]? = afterFirst c l := by
  induction l with
  | nil => rfl
  | cons x xs ih =>
    by_cases hx : x = c
    · simp [splitCh, hx, splitCh_get0, afterFirst, List.dropWhile_cons]
    · obtain ⟨h, t, hht⟩ : ∃ h t, splitCh c xs = h :: t := by
        cases hsp : splitCh c xs with
        | nil => exact absurd hsp (splitCh_ne_nil c xs)
        | cons h t => exact ⟨h, t, rfl⟩
      rw [hht] at ih
      have : afterFirst c (x :: xs) = afterFirst c xs := by
        simp [afterFirst, List.dropWhile_cons, hx]
      rw [this, ← ih]
      simp [splitCh, hx, hht, consHead]

theorem takeWhile_append_notLast {α : Type} (p : α → Bool) (x : α) (hx : p x = false) :
    ∀ l : List α, ((l ++ [x]).takeWhile p) = l.takeWhile p := by
  intro l
  induction l with
  | nil => simp [List.takeWhile_cons, hx]
  | cons a l ih => simp [List.takeWhile_cons, ih]

theorem takeWhile_append_mem {α : Type} (p : α → Bool) :
    ∀ (l l2 : List α), (∃ a ∈ l, p a = false) → ((l ++ l2).takeWhile p) = l.takeWhile p := by
  intro l
  induction l with
  | nil => intro l2 h; simp at h
  | cons a l ih =>
    intro l2 h
    by_cases ha : p a = true
    · have h2 : ∃ b ∈ l, p b = false := by
        obtain ⟨b, hb, hpb⟩ := h
        rcases List.mem_cons.mp hb with hb | hb
        · rw [hb] at hpb
          rw [ha] at hpb
          exact absurd hpb (by simp)
        · exact ⟨b, hb, hpb⟩
      simp [List.takeWhile_cons, ha, ih l2 h2]
    · have ha2 : p a = false := by simpa using ha
      simp [List.takeWhile_cons, ha2]

theorem takeWhile_all {α : Type} (p : α → Bool) :
    ∀ l : List α, (∀ a ∈ l, p a = true) → l.takeWhile p = l := by
  intro l
  induction l with
  | nil => intro _; rfl
  | cons a l ih =>
    intro h
    have ha := h a (by simp)
    simp [List.takeWhile_cons, ha, ih (fun b hb => h b (by simp [hb]))]

theorem splitCh_single (c : Char) : ∀ xs : List Char, c ∉ xs → splitCh c xs = [xs] := by
  intro xs
  induction xs with
  | nil => intro _; rfl
  | cons y ys ih =>
    intro h
    have hy : ¬ y = c := fun hyc => h (by simp [hyc])
    have hys : c ∉ ys := fun hc => h (by simp [hc])
    simp [splitCh, hy, ih hys, consHead]

theorem consHead_length (x : Char) (L : List (List Char)) (h : L ≠ []) :
    (consHead x L).length = L.length := by
  cases L with
  | nil => exact absurd rfl h
  | cons a t => simp [consHead]

theorem splitCh_length2 (c : Char) : ∀ xs : List Char, c ∈ xs → 2 ≤ (splitCh c xs).length := by
  intro xs
  induction xs with
  | nil => intro h; simp at h
  | cons y ys ih =>
    intro h
    by_cases hy : y = c
    · have h1 : 1 ≤ (splitCh c ys).length :=
        List.length_pos.mpr (splitCh_ne_nil c ys)
      rw [show splitCh c (y :: ys) = [] :: splitCh c ys by simp [splitCh, hy]]
      simp only [List.length_cons]
      omega
    · have hys : c ∈ ys := by
        rcases List.mem_cons.mp h with h1 | h1
        · exact absurd h1.symm hy
        · exact h1
      rw [show splitCh c (y :: ys) = consHead y (splitCh c ys) by simp [splitCh, hy],
        consHead_length y _ (splitCh_ne_nil c ys)]
      exact ih hys

theorem getLastD_consHead (x : Char) (L : List (List Char)) (h : 2 ≤ L.length) :
    (consHead x L).getLastD [] = L.getLastD [] := by
  cases L with
  | nil => simp at h
  | cons a t =>
    cases t with
    | nil => simp at h
    | cons b u => simp [consHead, List.getLastD_cons]

theorem getLastD_cons_of_ne_nil (a : List Char) (L : List (List Char)) (h : L ≠ []) :
    (a :: L).getLastD [] = L.getLastD [] := by
  cases L with
  | nil => exact absurd rfl h
  | cons b t => simp [List.getLastD_cons]

theorem splitCh_getLastD (c : Char) (l : List Char) :
    (splitCh c l).getLastD [] = (l.reverse.takeWhile (fun a => a != c)).reverse := by
  induction l with
  | nil => rfl
  | cons x xs ih =>
    have hrev : (x :: xs).reverse = xs.reverse ++ [x] := by simp
    by_cases hx : x = c
    · have hp : (fun a => a != c) x = false := by simp [hx]
      rw [hrev, takeWhile_append_notLast _ x hp, ← ih,
        show splitCh c (x :: xs) = [] :: splitCh c xs by simp [splitCh, hx]]
      exact getLastD_cons_of_ne_nil _ _ (splitCh_ne_nil c xs)
    · by_cases hmem : c ∈ xs
      · have hL : (consHead x (splitCh c xs)).getLastD [] = (splitCh c xs).getLastD [] :=
          getLastD_consHead x _ (splitCh_length2 c xs hmem)
        have hR : ((xs.reverse ++ [x]).takeWhile (fun a => a != c)) =
            xs.reverse.takeWhile (fun a => a != c) :=
          takeWhile_append_mem _ _ _ ⟨c, by simp [hmem], by simp⟩
        rw [hrev, hR, ← ih, ← hL]
        simp [splitCh, hx]
      · have hall : ∀ a ∈ xs.reverse ++ [x], (fun a => a != c) a = true := by
          intro a ha
          rcases List.mem_append.mp ha with h1 | h1
          · have h2 : a ∈ xs := List.mem_reverse.mp h1
            have h3 : a ≠ c := fun hac => hmem (hac ▸ h2)
            simpa using h3
          · have h2 : a = x := by simpa using h1
            have h3 : a ≠ c := by rw [h2]; exact hx
            simpa using h3
        rw [hrev, takeWhile_all _ _ hall]
        simp [splitCh, hx, splitCh_single c xs hmem, consHead, List.getLastD_cons]

theorem getLastD_map_mk :
    ∀ (L : List (List Char)) (d : List Char),
      (L.map String.mk).getLastD (String.mk d) = String.mk (L.getLastD d)
  | [], _ => rfl
  | a :: t, d => by
    rw [List.map_cons, List.getLastD_cons, List.getLastD_cons]
    exact getLastD_map_mk t a

/-! The spec's wording for the derived file name, for comparison with
`getFontFaceFileName`. -/

/-- Following the spec's words: the last "/"-separated segment of a URL
(the text after the last "/"). -/
def lastUrlSegmentSpec (url : String) : String :=
  String.mk ((url.data.reverse.takeWhile (fun a => a != '/')).reverse)

/-- Following the claim's words: the text after the LAST "." of a
segment. -/
def extAfterLastDotSpec (seg : String) : String :=
  String.mk ((seg.data.reverse.takeWhile (fun a => a != '.')).reverse)

/-- The file-name formula exactly as claim C5 words it:
family with spaces removed, "-", style, "-", weight, ".", the text after the
last "." of the URL's last "/"-separated segment, with all ";" removed. -/
def specFileName (f : FontFace) : String :=
  jsStrip ';' (jsStrip ' ' (jsTemplate f.fontFamily) ++ "-" ++ f.fontStyle ++ "-" ++
    f.fontWeight ++ "." ++ extAfterLastDotSpec (lastUrlSegmentSpec f.srcUrl))

/-- The amended wording for the extension: the text after the FIRST "." of
the segment, up to the next "." if any; `none` when the segment has no
".". -/
def extBetweenDotsSpec (seg : String) : Option String :=
  (afterFirst '.' seg.data).map String.mk

/-- The file-name formula of claim C5 with the extension rule amended to
"after the first dot"; an absent extension renders as "undefined". -/
def specFileNameAmended (f : FontFace) : String :=
  jsStrip ';' (jsStrip ' ' (jsTemplate f.fontFamily) ++ "-" ++ f.fontStyle ++ "-" ++
    f.fontWeight ++ "." ++ jsTemplate (extBetweenDotsSpec (lastUrlSegmentSpec f.srcUrl)))

theorem jsSplit_singleChar (s : String) (c : Char) (sep : String) (hsep : sep.data = [c]) :
    jsSplit s sep = (splitCh c s.data).map String.mk := by
  unfold jsSplit
  rw [hsep, splitFuel_single c s.data (s.data.length + 1) (Nat.le_succ _)]

theorem jsSplit_slash_getLastD (url : String) :
    (jsSplit url "/").getLastD "" = lastUrlSegmentSpec url := by
  rw [jsSplit_singleChar url '/' "/" rfl,
    show ("" : String) = String.mk [] from rfl, getLastD_map_mk, splitCh_getLastD]
  rfl

/-- The code's extension extraction coincides with the amended spec
wording: the text between the first and second "." of the last URL
segment. -/
theorem fontFileExtension_spec (url : String) :
    fontFileExtension url = extBetweenDotsSpec (lastUrlSegmentSpec url) := by
  unfold fontFileExtension extBetweenDotsSpec
  rw [jsSplit_slash_getLastD, jsSplit_singleChar _ '.' "." rfl,
    List.getElem?_map, splitCh_get1]

/-- Claim C5, counterexample: the code derives the extension with
`split('.')[1]` — the text between the first and second dots of the last URL
segment — not the text after the last dot.  On source URL "https://h/a.b.c"
the derived name is "Fam-n-4.b" while the claim's formula gives
"Fam-n-4.c". -/
theorem claim_c5_counterexample :
    getFontFaceFileName ⟨some "Fam", "n", "4", "https://h/a.b.c"⟩ = .ok "Fam-n-4.b" ∧
      specFileName ⟨some "Fam", "n", "4", "https://h/a.b.c"⟩ = "Fam-n-4.c" ∧
      ("Fam-n-4.b" : String) ≠ "Fam-n-4.c" := by
  refine ⟨by decide, by decide, by decide⟩

/-- Claim C5 (amended): for every descriptor with a defined family, the
derived file name equals the formula
familyNoSpaces-style-weight.ext with every ";" removed, where ext is the
text between the first and the second "." of the URL's last "/"-separated
segment ("undefined" when that segment has no "."); being given by this
function of the descriptor, the derivation is pure and deterministic, and
its output never contains ";". -/
theorem claim_c5_file_name (f : FontFace) (fam s : String)
    (hfam : f.fontFamily = some fam) (h : getFontFaceFileName f = .ok s) :
    s = specFileNameAmended f ∧ s.data.all (fun a => a != ';') = true := by
  have hs : s = jsStrip ';' (jsStrip ' ' fam ++ "-" ++ f.fontStyle ++ "-" ++ f.fontWeight ++
      "." ++ jsTemplate (fontFileExtension f.srcUrl)) := by
    rw [getFontFaceFileName, hfam] at h
    exact (Except.ok.inj h).symm
  constructor
  · rw [hs, specFileNameAmended, hfam, ← fontFileExtension_spec]
    rfl
  · rw [hs]
    unfold jsStrip
    rw [show (String.mk (List.filter (fun a => a != ';') _)).data =
      List.filter (fun a => a != ';') _ from rfl]
    rw [List.all_eq_true]
    intro a ha
    exact (List.mem_filter.mp ha).2

/-- Witness for C5 (amended) at the concrete Inter descriptor. -/
theorem claim_c5_witness :
    ("Inter-normal-400.woff2" : String) = specFileNameAmended dInter ∧
      ("Inter-normal-400.woff2" : String).data.all (fun a => a != ';') = true :=
  claim_c5_file_name dInter "Inter" "Inter-normal-400.woff2" (by decide) (by decide)

/-! Well-formed font-face blocks, for claim C4. -/

/-- The data of one well-formed `@font-face` block: a family, a style, a
weight and a source URL, to be rendered one declaration per line. -/
structure Block where
  family : String
  style : String
  weight : String
  url : String
deriving DecidableEq, Repr

/-- The family declaration line of a rendered block. -/
def familyLine (b : Block) : String := "  font-family: '" ++ b.family ++ "';"

/-- The style declaration line of a rendered block. -/
def styleLine (b : Block) : String := "  font-style: " ++ b.style ++ ";"

/-- The weight declaration line of a rendered block. -/
def weightLine (b : Block) : String := "  font-weight: " ++ b.weight ++ ";"

/-- The src declaration line of a rendered block. -/
def srcLine (b : Block) : String := "  src: url(" ++ b.url ++ ") format('woff2');"

/-- A block rendered with each declaration on its own line. -/
def renderBlock (b : Block) : List String :=
  ["@font-face \x7b", familyLine b, styleLine b, weightLine b, srcLine b, "\x7d"]

/-- A sequence of rendered blocks, concatenated in order. -/
def renderBlocks : List Block → List String
  | [] => []
  | b :: t => renderBlock b ++ renderBlocks t

/-- Well-formedness of a block: its rendered declaration lines carry exactly
their own marker (none of an earlier branch's markers), and the ad hoc
splits recover the intended values.  All conjuncts are decidable, so
concrete blocks are checked by evaluation. -/
def goodBlock (b : Block) : Prop :=
  jsIncludes (familyLine b) "@font-face" = false ∧
  jsIncludes (familyLine b) "font-family:" = true ∧
  (jsSplit (familyLine b) "'")[1]? = some b.family ∧
  jsIncludes (styleLine b) "@font-face" = false ∧
  jsIncludes (styleLine b) "font-family:" = false ∧
  jsIncludes (styleLine b) "font-style:" = true ∧
  ((jsSplit (styleLine b) ":")[1]?).isSome = true ∧
  jsIncludes (weightLine b) "@font-face" = false ∧
  jsIncludes (weightLine b) "font-family:" = false ∧
  jsIncludes (weightLine b) "font-style:" = false ∧
  jsIncludes (weightLine b) "font-weight:" = true ∧
  ((jsSplit (weightLine b) ":")[1]?).isSome = true ∧
  jsIncludes (srcLine b) "@font-face" = false ∧
  jsIncludes (srcLine b) "font-family:" = false ∧
  jsIncludes (srcLine b) "font-style:" = false ∧
  jsIncludes (srcLine b) "font-weight:" = false ∧
  jsIncludes (srcLine b) "src:" = true ∧
  ((jsSplit (srcLine b) "url(")[1]?).isSome = true

instance (b : Block) : Decidable (goodBlock b) := by
  unfold goodBlock
  infer_instance

theorem parseLines_append (a b : List String) (st : ParseState) :
    parseLines st (a ++ b) =
      match parseLines st a with
      | .error e => .error e
      | .ok st2 => parseLines st2 b := by
  induction a generalizing st with
  | nil => simp [parseLines]
  | cons l ls ih =>
    cases hpl : parseLine st l with
    | error e => simp [parseLines, hpl]
    | ok st2 => simp [parseLines, hpl, ih st2]

/-- Running the line loop over one well-formed rendered block from any state
pushes the previously open descriptor and leaves open a descriptor carrying
the block's family. -/
theorem parseBlock (b : Block) (hb : goodBlock b) (st : ParseState) :
    ∃ d : FontFace, parseLines st (renderBlock b) = .ok (some d, st.2 ++ st.1.toList) ∧
      d.fontFamily = some b.family := by
  obtain ⟨h1, h2, h3, h4, h5, h6, h7, h8, h9, h10, h11, h12, h13, h14, h15, h16, h17, h18⟩ := hb
  obtain ⟨v, hv⟩ := Option.isSome_iff_exists.mp h7
  obtain ⟨w, hw⟩ := Option.isSome_iff_exists.mp h12
  obtain ⟨u, hu⟩ := Option.isSome_iff_exists.mp h18
  have s0 : parseLine st "@font-face \x7b" = .ok (some emptyFontFace, st.2 ++ st.1.toList) :=
    parseLine_fontface st _ (by decide)
  have s1 : parseLine (some emptyFontFace, st.2 ++ st.1.toList) (familyLine b) =
      .ok (some ⟨some b.family, "", "", ""⟩, st.2 ++ st.1.toList) := by
    have h := parseLine_family emptyFontFace (st.2 ++ st.1.toList) (familyLine b) h1 h2
    rw [h3] at h
    simpa [emptyFontFace] using h
  have s2 : parseLine (some ⟨some b.family, "", "", ""⟩, st.2 ++ st.1.toList) (styleLine b) =
      .ok (some ⟨some b.family, jsTrim v, "", ""⟩, st.2 ++ st.1.toList) := by
    simpa using parseLine_style ⟨some b.family, "", "", ""⟩ (st.2 ++ st.1.toList)
      (styleLine b) v h4 h5 h6 hv
  have s3 : parseLine (some ⟨some b.family, jsTrim v, "", ""⟩, st.2 ++ st.1.toList)
      (weightLine b) =
      .ok (some ⟨some b.family, jsTrim v, jsTrim w, ""⟩, st.2 ++ st.1.toList) := by
    simpa using parseLine_weight ⟨some b.family, jsTrim v, "", ""⟩ (st.2 ++ st.1.toList)
      (weightLine b) w h8 h9 h10 h11 hw
  have s4 : parseLine (some ⟨some b.family, jsTrim v, jsTrim w, ""⟩, st.2 ++ st.1.toList)
      (srcLine b) =
      .ok (some ⟨some b.family, jsTrim v, jsTrim w, (jsSplit u ")").headD ""⟩,
        st.2 ++ st.1.toList) := by
    simpa using parseLine_src ⟨some b.family, jsTrim v, jsTrim w, ""⟩ (st.2 ++ st.1.toList)
      (srcLine b) u h13 h14 h15 h16 h17 hu
  have s5 := parseLine_ignore
    (some ⟨some b.family, jsTrim v, jsTrim w, (jsSplit u ")").headD ""⟩, st.2 ++ st.1.toList)
    "\x7d" (by decide) (by decide) (by decide) (by decide) (by decide)
  refine ⟨⟨some b.family, jsTrim v, jsTrim w, (jsSplit u ")").headD ""⟩, ?_, rfl⟩
  simp only [renderBlock, parseLines, s0, s1, s2, s3, s4, s5]

/-- Running the line loop over a sequence of well-formed blocks succeeds,
appending one descriptor per block, in order (witnessed by the families). -/
theorem parseBlocks (bs : List Block) (hbs : ∀ b ∈ bs, goodBlock b) :
    ∀ st : ParseState, ∃ (p : ParseState) (ds : List FontFace),
      parseLines st (renderBlocks bs) = .ok p ∧
      p.2 ++ p.1.toList = st.2 ++ st.1.toList ++ ds ∧
      ds.map FontFace.fontFamily = bs.map (fun b => some b.family) := by
  induction bs with
  | nil => intro st; exact ⟨st, [], rfl, by simp, rfl⟩
  | cons b t ih =>
    intro st
    obtain ⟨d, hd, hfam⟩ := parseBlock b (hbs b (by simp)) st
    obtain ⟨p, ds, hp, hacc, hmap⟩ :=
      ih (fun x hx => hbs x (by simp [hx])) (some d, st.2 ++ st.1.toList)
    refine ⟨p, d :: ds, ?_, ?_, ?_⟩
    · rw [show renderBlocks (b :: t) = renderBlock b ++ renderBlocks t from rfl,
        parseLines_append, hd]
      exact hp
    · rw [hacc]
      simp
    · simp [hmap, hfam]

/-- Claim C4: for every stylesheet text whose lines form N well-formed
`@font-face` blocks (each declaration on its own line), the parser produces
exactly N descriptors, in source order (their families match the blocks'
families position by position); in particular the descriptor still open at
end of input is flushed into the result. -/
theorem claim_c4_block_count (css : String) (bs : List Block)
    (hsplit : jsSplit css "\n" = renderBlocks bs) (hgood : ∀ b ∈ bs, goodBlock b) :
    ∃ ds : List FontFace, parseFontFaces css = .ok ds ∧ ds.length = bs.length ∧
      ds.map FontFace.fontFamily = bs.map (fun b => some b.family) := by
  obtain ⟨⟨cur, acc⟩, ds, hp, hacc, hmap⟩ := parseBlocks bs hgood (none, [])
  refine ⟨ds, ?_, ?_, hmap⟩
  · rw [parseFontFaces, hsplit, hp]
    simpa using hacc
  · calc ds.length = (ds.map FontFace.fontFamily).length := by simp
    _ = (bs.map (fun b => some b.family)).length := by rw [hmap]
    _ = bs.length := by simp

/-- First concrete block for the C4 witness. -/
def b1Block : Block := ⟨"Inter", "normal", "400", "https://host/inter.woff2"⟩

/-- Second concrete block for the C4 witness, with a space in the family. -/
def b2Block : Block := ⟨"Roboto Slab", "italic", "700", "https://host/roboto.woff2"⟩

/-- The two blocks of the C4 witness rendered as a stylesheet text. -/
def c4Input : String :=
  "@font-face \x7b\n  font-family: 'Inter';\n  font-style: normal;\n  font-weight: 400;\n  src: url(https://host/inter.woff2) format('woff2');\n\x7d\n@font-face \x7b\n  font-family: 'Roboto Slab';\n  font-style: italic;\n  font-weight: 700;\n  src: url(https://host/roboto.woff2) format('woff2');\n\x7d"

/-- Witness for C4: a concrete two-block stylesheet parses to exactly two
descriptors, in source order. -/
theorem claim_c4_witness :
    ∃ ds : List FontFace, parseFontFaces c4Input = .ok ds ∧ ds.length = 2 ∧
      ds.map FontFace.fontFamily = [some "Inter", some "Roboto Slab"] := by
  have h := claim_c4_block_count c4Input [b1Block, b2Block] (by decide) (by decide)
  simpa [b1Block, b2Block] using h

/-! The download loop and the rewritten stylesheet, for claims C6 and C9. -/

theorem strAppend_assoc (a b c : String) : (a ++ b) ++ c = a ++ (b ++ c) := by
  rcases a with ⟨x⟩
  rcases b with ⟨y⟩
  rcases c with ⟨z⟩
  show String.mk ((x ++ y) ++ z) = String.mk (x ++ (y ++ z))
  rw [List.append_assoc]

/-- The font file path (relative to the output directory) that the download
loop writes for a descriptor: `fonts/<family>/<derived file name>`
(src/fetch-fonts.js line 116). -/
def fontFilePathOf (f : FontFace) : String :=
  jsPathJoin ["fonts", jsTemplate f.fontFamily,
    match getFontFaceFileName f with
    | .ok n => n
    | .error _ => ""]

/-- The download loop, characterized on the failure class its try/catch
actually handles: with every family defined and every download either
succeeding or rejecting (no uncaught request 'error', no stall), the loop
completes, attempts every descriptor's source URL in order, and the files
on disk are exactly those of the descriptors whose download succeeded. -/
theorem downloadAll_spec :
    ∀ (fs : List FontFace) (dl : String → DownloadResult),
      (∀ f ∈ fs, f.fontFamily.isSome = true) →
      (∀ u, dl u = .success ∨ dl u = .rejection) →
      downloadAll fs dl = .ok (.completed (fs.map FontFace.srcUrl)
        ((fs.filter (fun f => dl f.srcUrl == .success)).map fontFilePathOf)) := by
  intro fs dl
  induction fs with
  | nil => intro _ _; rfl
  | cons f t ih =>
    intro h hor
    obtain ⟨fam, hfam⟩ := Option.isSome_iff_exists.mp (h f (by simp))
    have ht := ih (fun x hx => h x (by simp [hx])) hor
    have hn : getFontFaceFileName f =
        .ok (jsStrip ';' (jsStrip ' ' fam ++ "-" ++ f.fontStyle ++ "-" ++ f.fontWeight ++
          "." ++ jsTemplate (fontFileExtension f.srcUrl))) := by
      rw [getFontFaceFileName, hfam]
    rcases hor f.srcUrl with hd | hd
    · simp only [downloadAll, hn, hd, ht, List.map_cons, List.filter_cons]
      simp [BatchOutcome.push, hd, fontFilePathOf, hn]
    · simp only [downloadAll, hn, hd, ht, List.map_cons, List.filter_cons]
      simp [BatchOutcome.push, hd]

theorem buildRules_length :
    ∀ (fs : List FontFace) (rules : List String),
      buildFontFaceRules fs = .ok rules → rules.length = fs.length := by
  intro fs
  induction fs with
  | nil =>
    intro rules h
    simp only [buildFontFaceRules] at h
    rw [← Except.ok.inj h]
    rfl
  | cons f t ih =>
    intro rules h
    simp only [buildFontFaceRules] at h
    cases hr : fontFaceRule f with
    | error e => rw [hr] at h; simp at h
    | ok r =>
      rw [hr] at h
      cases hrs : buildFontFaceRules t with
      | error e => rw [hrs] at h; simp at h
      | ok rs =>
        rw [hrs] at h
        rw [← Except.ok.inj h]
        simp [ih rs hrs]

theorem buildRules_get :
    ∀ (fs : List FontFace) (rules : List String),
      buildFontFaceRules fs = .ok rules →
      ∀ (i : Nat) (hi : i < fs.length) (hi2 : i < rules.length),
        fontFaceRule (fs.get ⟨i, hi⟩) = .ok (rules.get ⟨i, hi2⟩) := by
  intro fs
  induction fs with
  | nil => intro rules h i hi; simp at hi
  | cons f t ih =>
    intro rules h i hi hi2
    simp only [buildFontFaceRules] at h
    cases hr : fontFaceRule f with
    | error e => rw [hr] at h; simp at h
    | ok r =>
      rw [hr] at h
      cases hrs : buildFontFaceRules t with
      | error e => rw [hrs] at h; simp at h
      | ok rs =>
        rw [hrs] at h
        have hrules : r :: rs = rules := Except.ok.inj h
        subst hrules
        cases i with
        | zero => simpa using hr
        | succ j =>
          have hj : j < t.length := by simpa using hi
          have hj2 : j < rs.length := by simpa using hi2
          simpa using ih rs hrs j hj hj2

theorem fontFaceRule_family (f : FontFace) (r : String) (h : fontFaceRule f = .ok r) :
    f.fontFamily.isSome = true := by
  unfold fontFaceRule getFontFaceFileName at h
  cases hf : f.fontFamily with
  | none => simp [hf] at h
  | some fam => simp [hf]

theorem buildRules_family :
    ∀ (fs : List FontFace) (rules : List String),
      buildFontFaceRules fs = .ok rules → ∀ f ∈ fs, f.fontFamily.isSome = true := by
  intro fs
  induction fs with
  | nil => intro rules _ f hf; simp at hf
  | cons g t ih =>
    intro rules h f hf
    simp only [buildFontFaceRules] at h
    cases hr : fontFaceRule g with
    | error e => rw [hr] at h; simp at h
    | ok r =>
      rw [hr] at h
      cases hrs : buildFontFaceRules t with
      | error e => rw [hrs] at h; simp at h
      | ok rs =>
        rcases List.mem_cons.mp hf with hf1 | hf1
        · rw [hf1]; exact fontFaceRule_family g r hr
        · exact ih rs hrs f hf1

/-- Claim C6: the rewritten stylesheet is a function of the parsed
descriptors alone.  When the build succeeds, there is exactly one rule per
descriptor (the lengths agree); for every download outcome `dl` in the
failure class the loop handles (each download succeeds or rejects) the
pipeline produces the same stylesheet text (the joined rules), with only
the on-disk font files varying; and the i-th rule embeds the relative path
`../fonts/<family>/<derived file name>` of the i-th descriptor. -/
theorem claim_c6_rewrite_independent (cssIn : String) (fs : List FontFace)
    (rules : List String)
    (hp : parseFontFaces cssIn = .ok fs) (hr : buildFontFaceRules fs = .ok rules) :
    rules.length = fs.length ∧
    (∀ dl : String → DownloadResult, (∀ u, dl u = .success ∨ dl u = .rejection) →
      parseAndDownloadFonts cssIn dl = .ok (.completed
        ⟨fs.map FontFace.srcUrl,
          (fs.filter (fun f => dl f.srcUrl == .success)).map fontFilePathOf,
          String.join (rules.map (fun r => r ++ "\n"))⟩)) ∧
    (∀ (i : Nat) (hi : i < fs.length) (hi2 : i < rules.length),
      ∃ name pre post, getFontFaceFileName (fs.get ⟨i, hi⟩) = .ok name ∧
        rules.get ⟨i, hi2⟩ =
          pre ++ ("../fonts/" ++ jsTemplate (fs.get ⟨i, hi⟩).fontFamily ++ "/" ++ name) ++
            post) := by
  have hcss : buildFontFaceCSS fs = .ok (String.join (rules.map (fun r => r ++ "\n"))) := by
    rw [buildFontFaceCSS, hr]
  refine ⟨buildRules_length fs rules hr, ?_, ?_⟩
  · intro dl hor
    have hdl := downloadAll_spec fs dl (buildRules_family fs rules hr) hor
    simp only [parseAndDownloadFonts, hp, hcss, hdl]
  · intro i hi hi2
    have hfr := buildRules_get fs rules hr i hi hi2
    unfold fontFaceRule at hfr
    cases hn : getFontFaceFileName (fs.get ⟨i, hi⟩) with
    | error e => rw [hn] at hfr; simp at hfr
    | ok name =>
      rw [hn] at hfr
      refine ⟨name,
        "@font-face \x7bfont-family: '" ++ jsTemplate (fs.get ⟨i, hi⟩).fontFamily ++
          "';font-style: " ++ (fs.get ⟨i, hi⟩).fontStyle ++ ";font-weight: " ++
          (fs.get ⟨i, hi⟩).fontWeight ++ ";src: url('",
        "') format('" ++ jsTemplate (fontFileExtension (fs.get ⟨i, hi⟩).srcUrl) ++ "');\x7d",
        rfl, ?_⟩
      rw [← Except.ok.inj hfr]
      simp [strAppend_assoc]

/-- The single rule the rewriter produces for the Inter descriptor. -/
def interRule : String :=
  "@font-face \x7bfont-family: 'Inter';font-style: normal;;font-weight: 400;;src: url('../fonts/Inter/Inter-normal-400.woff2') format('woff2');\x7d"

/-- Witness for C6: on the concrete Inter stylesheet with every download
rejecting, the pipeline still writes the same one-rule stylesheet, with no
font file on disk. -/
theorem claim_c6_witness :
    parseAndDownloadFonts c1MultiLineInput (fun _ => .rejection) =
      .ok (.completed ⟨["https://host/inter.woff2"], [], interRule ++ "\n"⟩) := by
  have h := (claim_c6_rewrite_independent c1MultiLineInput [dInter] [interRule]
    (by decide) (by decide)).2.1 (fun _ => .rejection) (fun _ => Or.inr rfl)
  rw [h]
  decide

/-- A descriptor whose source host refuses the connection, for the C9
witness. -/
def dCrash : FontFace := ⟨some "Down", "normal;", "400;", "https://down.example/d.woff2"⟩

/-- Claim C9 (code bug): `download` (src/fetch-fonts.js lines 184-198)
attaches both its 'finish' and 'error' handlers to the writer returned by
`res.pipe(writer)`, so the loop's try/catch sees only promise rejections
(writer errors, or a synchronous throw from `https.get`).  (1) A
connection-level failure emits 'error' on the listener-less ClientRequest:
the process dies — the batch aborts after that one attempt, nothing is
logged, and no later descriptor is ever attempted.  (2) A response-stream
error settles neither handler: the awaited promise hangs and the batch
stalls after that attempt.  (3) Only for failures that do reject the
promise does the claimed behavior hold: the rejection is caught and logged,
every descriptor is still attempted, one at a time in descriptor order, and
just the failed descriptors' files are absent from the output tree. -/
theorem claim_c9_crash_aborts :
    (∀ (f : FontFace) (fs : List FontFace) (dl : String → DownloadResult),
      f.fontFamily.isSome = true → dl f.srcUrl = .requestCrash →
      downloadAll (f :: fs) dl = .ok (.crashed [f.srcUrl] [])) ∧
    (∀ (f : FontFace) (fs : List FontFace) (dl : String → DownloadResult),
      f.fontFamily.isSome = true → dl f.srcUrl = .stall →
      downloadAll (f :: fs) dl = .ok (.stalled [f.srcUrl] [])) ∧
    (∀ (fs : List FontFace) (dl : String → DownloadResult),
      (∀ f ∈ fs, f.fontFamily.isSome = true) →
      (∀ u, dl u = .success ∨ dl u = .rejection) →
      downloadAll fs dl = .ok (.completed (fs.map FontFace.srcUrl)
        ((fs.filter (fun f => dl f.srcUrl == .success)).map fontFilePathOf))) := by
  refine ⟨fun f fs dl hf hc => ?_, fun f fs dl hf hc => ?_,
    fun fs dl h hor => downloadAll_spec fs dl h hor⟩
  · obtain ⟨fam, hfam⟩ := Option.isSome_iff_exists.mp hf
    have hn : getFontFaceFileName f =
        .ok (jsStrip ';' (jsStrip ' ' fam ++ "-" ++ f.fontStyle ++ "-" ++ f.fontWeight ++
          "." ++ jsTemplate (fontFileExtension f.srcUrl))) := by
      rw [getFontFaceFileName, hfam]
    simp only [downloadAll, hn, hc]
  · obtain ⟨fam, hfam⟩ := Option.isSome_iff_exists.mp hf
    have hn : getFontFaceFileName f =
        .ok (jsStrip ';' (jsStrip ' ' fam ++ "-" ++ f.fontStyle ++ "-" ++ f.fontWeight ++
          "." ++ jsTemplate (fontFileExtension f.srcUrl))) := by
      rw [getFontFaceFileName, hfam]
    simp only [downloadAll, hn, hc]

/-- Witness for C9: a refused connection on the first descriptor crashes
the process after the first attempt — the Roboto descriptor is never
attempted — while with a caught rejection on Roboto the batch completes,
attempts both URLs in order, and only the Inter file is on disk. -/
theorem claim_c9_witness :
    downloadAll [dCrash, dRoboto] (fun _ => .requestCrash) =
      .ok (.crashed ["https://down.example/d.woff2"] []) ∧
    downloadAll [dInter, dRoboto]
        (fun u => if u == "https://host/inter.woff2" then .success else .rejection) =
      .ok (.completed ["https://host/inter.woff2", "https://host/roboto.woff2"]
        ["fonts/Inter/Inter-normal-400.woff2"]) := by
  constructor
  · exact claim_c9_crash_aborts.1 dCrash [dRoboto] (fun _ => .requestCrash) (by decide) rfl
  · have hor : ∀ u : String,
        (if u == "https://host/inter.woff2" then DownloadResult.success
          else DownloadResult.rejection) = .success ∨
        (if u == "https://host/inter.woff2" then DownloadResult.success
          else DownloadResult.rejection) = .rejection := by
      intro u
      by_cases hu : u == "https://host/inter.woff2"
      · left
        simp [hu]
      · right
        simp [hu]
    have h := claim_c9_crash_aborts.2.2 [dInter, dRoboto]
      (fun u => if u == "https://host/inter.woff2" then .success else .rejection)
      (by decide) hor
    rw [h]
    decide

end FetchFonts
